import Mathlib

/-!
Verification development for the quiz-generator repository (src/generator.py).

The Python source is shallowly embedded: each Python function becomes a Lean
function with the same name (snake_case preserved).  Python exceptions are
modelled with `Except PyErr`; Python's `random.choice` is modelled by an
injected index source (quantifying over it covers every possible random draw);
the Python builtin `eval` (external to the repository) is an explicit function
parameter; MD5 hex digesting (`hashlib`, external library) is an explicit
function parameter.  File-system effects of `create_qti_package` are modelled
by threading an explicit `FS` state.  All definitions are computable and
structurally recursive (bounded loops use an explicit fuel argument that is
provably sufficient), so closed instances evaluate by `rfl`/`decide`.
-/

/-- Python exceptions raised by the code paths under study:
`IndexError` (sequence indexing / `random.choice` on an empty sequence) and
`ValueError` (`list.index` when the element is absent). -/
inductive PyErr where
  | indexError (msg : String)
  | valueError (msg : String)
deriving DecidableEq

/-- The `IndexError` CPython's `random.choice` raises on an empty sequence. -/
def emptyChoiceErr : PyErr := PyErr.indexError "Cannot choose from an empty sequence"

/-! ### Python string primitives

`str.replace`, `str.strip`, slicing and `str(int)` are language builtins; they
are modelled here directly (fuel arguments are bounded by the input length and
provably sufficient, keeping every definition kernel-reducible). -/

/-- One scan of Python `str.replace`: replaces each non-overlapping occurrence
of `pat` (non-empty) left to right.  `fuel ≥` input length always suffices
because every step consumes at least one character. -/
def pyReplaceGo (pat rep : List Char) : Nat → List Char → List Char
  | 0, cs => cs
  | _ + 1, [] => []
  | fuel + 1, c :: cs =>
    if pat.isPrefixOf (c :: cs) then
      rep ++ pyReplaceGo pat rep fuel ((c :: cs).drop pat.length)
    else
      c :: pyReplaceGo pat rep fuel cs

/-- Models Python `s.replace(pat, rep)` (all patterns used by the source are
non-empty; the empty-pattern case returns `s` unchanged). -/
def pyReplace (s pat rep : String) : String :=
  if pat.data.isEmpty then s
  else String.mk (pyReplaceGo pat.data rep.data s.data.length s.data)

/-- Models Python `s.strip()`. -/
def pyStrip (s : String) : String :=
  String.mk (((s.data.dropWhile Char.isWhitespace).reverse.dropWhile Char.isWhitespace).reverse)

/-- Models the Python slice `s[:n]`. -/
def strTake (s : String) (n : Nat) : String :=
  String.mk (s.data.take n)

/-- Models `os.path.basename` (the component after the last `/`). -/
def baseName (p : String) : String :=
  String.mk ((p.data.reverse.takeWhile (fun c => c ≠ '/')).reverse)

/-- Decimal digit character for `n < 10`. -/
def digitChar : Nat → Char
  | 0 => '0' | 1 => '1' | 2 => '2' | 3 => '3' | 4 => '4'
  | 5 => '5' | 6 => '6' | 7 => '7' | 8 => '8' | 9 => '9'
  | _ => '*'

/-- Numeric value of a digit character. -/
def digitVal (c : Char) : Nat := c.toNat - 48

/-- Decimal digits of a natural number, most significant first; `fuel > n`
always suffices. -/
def natDigitsGo : Nat → Nat → List Char
  | 0, _ => []
  | fuel + 1, n =>
    if n < 10 then [digitChar n]
    else natDigitsGo fuel (n / 10) ++ [digitChar (n % 10)]

/-- Decimal digits of `n` (canonical fuel). -/
def natDigitsC (n : Nat) : List Char := natDigitsGo (n + 1) n

/-- Models Python `str(n)` for a non-negative integer. -/
def natStr (n : Nat) : String := String.mk (natDigitsC n)

/-- Models Python `str(v)` for an integer. -/
def intStr (v : Int) : String :=
  if v < 0 then "-" ++ natStr v.natAbs else natStr v.toNat

/-- Models Python `enumerate(l, i)` (the source uses start `0`). -/
def pyEnum (i : Nat) : List α → List (Nat × α)
  | [] => []
  | a :: l => (i, a) :: pyEnum (i + 1) l

/-- Models Python `list.index(x)` as an `Option`: the first index whose
element equals `x`, `none` when absent (where CPython raises `ValueError`). -/
def listIndex (x : String) : List String → Option Nat
  | [] => none
  | a :: l => if a = x then some 0 else (listIndex x l).map (· + 1)

/-! ### sanitize_latex_expr -/

/-- `sanitize_latex_expr` from the source: the first 8 characters of the MD5
hex digest of the expression, with a `.png` suffix.  `md5hex` models
`hashlib.md5(...).hexdigest()` (an external library call), injected as a
function parameter. -/
def sanitize_latex_expr (md5hex : String → String) (latex_expr : String) : String :=
  strTake (md5hex latex_expr) 8 ++ ".png"

/-! ### Inline-math scanning

`generate_latex_images` uses `re.findall(r'\$(.+?)\$', text)` and
`process_text_with_latex` uses `re.finditer(r'(\$.*?\$)', text)`.  Both pair
consecutive `$` delimiters lazily; `.` does not match a newline, so a
candidate segment is abandoned when a newline (or the end of the string)
arrives before the closing `$`, exactly as the regex engine does (it then
resumes the search one position further, which the character-level state
machine below reproduces).  `needOne` distinguishes `.+?` (content must be
non-empty, so in `$$a$` the second `$` becomes the first content character)
from `.*?`. -/
def scanGo (needOne : Bool) : List Char → Option (List Char) → List (Bool × List Char)
  | [], none => []
  | [], some acc => [(false, '$' :: acc.reverse)]
  | c :: cs, none =>
    if c = '$' then scanGo needOne cs (some [])
    else (false, [c]) :: scanGo needOne cs none
  | c :: cs, some acc =>
    if c = '$' then
      if needOne && acc.isEmpty then scanGo needOne cs (some ['$'])
      else (true, acc.reverse) :: scanGo needOne cs none
    else if c = '\n' then
      (false, '$' :: (acc.reverse ++ ['\n'])) :: scanGo needOne cs none
    else scanGo needOne cs (some (c :: acc))

/-- The segment list `process_text_with_latex` iterates over: `(true, cs)` is
a math segment with content `cs`, `(false, cs)` is ordinary text. -/
def segmentsOf (s : String) : List (Bool × List Char) := scanGo false s.data none

/-- The match list of `re.findall(r'\$(.+?)\$', s)`. -/
def findallLatex (s : String) : List String :=
  (scanGo true s.data none).filterMap (fun p => if p.1 then some (String.mk p.2) else none)

/-- Number of math segments in a segment list. -/
def countLatex (segs : List (Bool × List Char)) : Nat := segs.countP (fun p => p.1)

/-- Number of math segments `process_text_with_latex` splices in `s`. -/
def nSeg (s : String) : Nat := countLatex (segmentsOf s)

/-! ### generate_latex_images -/

/-- The inner accumulation of `generate_latex_images` over the list
`[prompt] + choices`. -/
def latexImagesOfTexts (md5hex : String → String) : List String → List (String × String)
  | [] => []
  | t :: ts =>
    (findallLatex t).map (fun e => (e, sanitize_latex_expr md5hex e)) ++
      latexImagesOfTexts md5hex ts

/-- `generate_latex_images` from the source: one `(expression, filename)` pair
per `$...$` match in the prompt and each choice, in order.  The
`question_id` argument is only used by the source for a console warning. -/
def generate_latex_images (md5hex : String → String) (prompt : String)
    (choices : List String) (_question_id : String) : List (String × String) :=
  latexImagesOfTexts md5hex (prompt :: choices)

/-! ### process_text_with_latex -/

/-- The `<img>` markup spliced for a math segment rendered to `fname`. -/
def imgTag (fname : String) : String :=
  "<img src=\"images/" ++ fname ++ "\" alt=\"LaTeX Image\" />"

/-- The html-building loop of `process_text_with_latex`: text segments pass
through, each math segment consumes `latex_images[image_index]` (raising
`IndexError` past the end, as Python indexing does) and advances the index. -/
def buildHtml (latex_images : List (String × String)) :
    List (Bool × List Char) → Nat → Except PyErr (String × Nat)
  | [], i => .ok ("", i)
  | (false, cs) :: rest, i =>
    match buildHtml latex_images rest i with
    | .error e => .error e
    | .ok (h, j) => .ok (String.mk cs ++ h, j)
  | (true, _) :: rest, i =>
    match latex_images[i]? with
    | none => .error (PyErr.indexError "list index out of range")
    | some im =>
      match buildHtml latex_images rest (i + 1) with
      | .error e => .error e
      | .ok (h, j) => .ok (imgTag im.2 ++ h, j)

/-- `process_text_with_latex` from the source: returns the html with math
segments replaced by `<img>` references, and the advanced image index. -/
def process_text_with_latex (prompt : String) (latex_images : List (String × String))
    (image_index : Nat) : Except PyErr (String × Nat) :=
  buildHtml latex_images (segmentsOf prompt) image_index

/-! ### evaluate_embedded_expressions

The source loops `re.sub(r'eval{([^{}]*)}', eval_match, s)` while a match
exists.  `evalFn` models `eval_match`'s output for a matched expression text
(`str(eval(expr))`, or the `[eval error: ...]` text when `eval` raises);
the Python `eval` builtin is external to the repository.  The fuel
`s.length + 1` bounds the number of `re.sub` passes: when `evalFn` emits no
brace, every pass with a match strictly decreases the number of `{`
characters, which the initial length bounds. -/
def readEvalContent : List Char → Option (List Char × List Char)
  | [] => none
  | c :: cs =>
    if c = '\x7d' then some ([], cs)
    else if c = '\x7b' then none
    else
      match readEvalContent cs with
      | some (co, rest) => some (c :: co, rest)
      | none => none

/-- One `re.sub` pass: replaces every non-overlapping `eval{...}` match left
to right (replacement text is not rescanned within the pass). -/
def substEvalGo (evalFn : String → String) : Nat → List Char → List Char
  | 0, cs => cs
  | _ + 1, [] => []
  | fuel + 1, c :: cs =>
    if ("eval\x7b".data).isPrefixOf (c :: cs) then
      match readEvalContent (cs.drop 4) with
      | some (content, afterClose) =>
        (evalFn (String.mk content)).data ++ substEvalGo evalFn fuel afterClose
      | none => c :: substEvalGo evalFn fuel cs
    else c :: substEvalGo evalFn fuel cs

/-- Whether `re.search(r'eval{([^{}]*)}', s)` finds a match. -/
def hasEvalMatch : List Char → Bool
  | [] => false
  | c :: rest =>
    (("eval\x7b".data).isPrefixOf (c :: rest) && (readEvalContent (rest.drop 4)).isSome) ||
      hasEvalMatch rest

/-- The `while re.search(...)` loop of `evaluate_embedded_expressions`. -/
def evalLoop (evalFn : String → String) : Nat → List Char → List Char
  | 0, cs => cs
  | fuel + 1, cs =>
    if hasEvalMatch cs then evalLoop evalFn fuel (substEvalGo evalFn cs.length cs)
    else cs

/-- `evaluate_embedded_expressions` from the source. -/
def evaluate_embedded_expressions (evalFn : String → String) (s : String) : String :=
  String.mk (evalLoop evalFn (s.length + 1) s.data)

/-! ### process_question -/

/-- A question template record (`variables` keeps the JSON object's insertion
order, as Python dicts do; candidate values are the JSON numbers, modelled as
integers). -/
structure Question where
  id : String
  prompt : String
  choices : List String
  correct : String
  /-- the `variables` field of the template (`variable(s)` is reserved in Lean) -/
  vars : List (String × List Int)

/-- A concrete question instance produced by `process_question`. -/
structure ConcreteQuestion where
  id : String
  prompt : String
  choices : List String
  correct : String
deriving DecidableEq

/-- Models `random.choice(vs)` where `r` is the drawn random index: raises
`IndexError` on an empty sequence, otherwise returns some element (quantifying
over `r` covers every possible draw). -/
def randomChoice (r : Nat) (vs : List Int) : Except PyErr Int :=
  match vs with
  | [] => .error emptyChoiceErr
  | v :: tl => .ok ((v :: tl).get ⟨r % (v :: tl).length, Nat.mod_lt _ (Nat.succ_pos _)⟩)

/-- The randomisation loop of `process_question`: one `random.choice` per
variable, in declaration order; `rand k` is the random index used by the
`k`-th draw. -/
def drawValues (rand : Nat → Nat) : List (String × List Int) → Nat → Except PyErr (List (String × Int))
  | [], _ => .ok []
  | (n, vs) :: rest, k =>
    match randomChoice (rand k) vs with
    | .error e => .error e
    | .ok v =>
      match drawValues rand rest (k + 1) with
      | .error e => .error e
      | .ok tl => .ok ((n, v) :: tl)

/-- The substitution loop used for each choice and for `correct`: replace
every `~name` occurrence for every bound variable, in order. -/
def substAllVars : List (String × Int) → String → String
  | [], s => s
  | (n, v) :: rest, s => substAllVars rest (pyReplace s ("~" ++ n) (intStr v))

/-- The prompt loop of `process_question` as written in the source: after
substituting each single variable it immediately calls
`evaluate_embedded_expressions` (the call is inside the `for` loop). -/
def substPromptLoop (evalFn : String → String) : List (String × Int) → String → String
  | [], s => s
  | (n, v) :: rest, s =>
    substPromptLoop evalFn rest
      (evaluate_embedded_expressions evalFn (pyReplace s ("~" ++ n) (intStr v)))

/-- Substitute all variables, then evaluate embedded expressions once — the
transformation the source applies to each choice and to `correct`. -/
def expandField (evalFn : String → String) (vals : List (String × Int)) (s : String) : String :=
  evaluate_embedded_expressions evalFn (substAllVars vals s)

/-- The instance id built by `process_question`:
`f"{question['id']}_v{version_id}"`. -/
def instanceId (tid : String) (version_id : Nat) : String :=
  tid ++ "_v" ++ natStr version_id

/-- `process_question` from the source.  The second component of the result
is the value of the `question` argument after the call (the source only ever
reads `question`'s fields — `str.replace` returns fresh strings — so the
threaded record is returned on every exit path exactly as the statements
leave it). -/
def process_question (evalFn : String → String) (rand : Nat → Nat)
    (question : Question) (version_id : Nat) :
    Except PyErr ConcreteQuestion × Question :=
  match drawValues rand question.vars 0 with
  | .error e => (.error e, question)
  | .ok randomized_values =>
    (.ok
      { id := instanceId question.id version_id
        prompt := substPromptLoop evalFn randomized_values question.prompt
        choices := question.choices.map (fun c => expandField evalFn randomized_values c)
        correct := expandField evalFn randomized_values question.correct },
      question)

/-! ### Model of the Python `eval` builtin on the reachable expressions -/

/-- Split on `+` (models how Python parses the sums appearing here). -/
def splitPlusGo (acc : List Char) : List Char → List (List Char)
  | [] => [acc.reverse]
  | c :: cs => if c = '+' then acc.reverse :: splitPlusGo [] cs else splitPlusGo (c :: acc) cs

/-- Value of a non-empty digit string. -/
def digitsToNat (ds : List Char) : Nat := ds.foldl (fun a c => 10 * a + (c.toNat - 48)) 0

/-- Modelled from the spec: the source delegates `eval{...}` contents to the
Python builtin `eval` (external to this repository, spec §4.2/§9).  This
models `str(eval(e))` as wrapped by `eval_match` — including its
`[eval error: ...]` fallback — on the expression forms reachable in this
development: sums of decimal integer literals evaluate; an operand still
containing a `~name` placeholder raises `NameError` (Python parses `~name` as
bitwise-not of the undefined name `name`). -/
def pyEvalArith (e : String) : String :=
  let parts := splitPlusGo [] e.data
  if parts.all (fun p => !p.isEmpty && p.all Char.isDigit) then
    natStr (parts.foldl (fun a p => a + digitsToNat p) 0)
  else
    match parts.find? (fun p => p.head? == some '~') with
    | some p => "[eval error: name \x27" ++ String.mk (p.drop 1) ++ "\x27 is not defined]"
    | none => "[eval error: invalid syntax]"

/-! ### XML trees

`lxml.etree` elements are modelled as ordered trees: tag, attributes in
insertion order, optional text, children in insertion order. -/

/-- An XML element as built by the source with `ET.Element`/`SubElement`. -/
inductive XNode where
  | elem (tag : String) (attrs : List (String × String)) (text : Option String)
      (children : List XNode)

/-- The `ident` attribute of an element (first binding wins, as in lxml). -/
def identAttr : XNode → String
  | .elem _ attrs _ _ => ((attrs.find? (fun a => a.1 == "ident")).map Prod.snd).getD ""

/-- The text content of an element. -/
def textOf : XNode → String
  | .elem _ _ t _ => t.getD ""

mutual
/-- All elements (the node itself included) with the given tag, in document
order. -/
def collectTag (target : String) : XNode → List XNode
  | .elem tag attrs text children =>
    (if tag = target then [XNode.elem tag attrs text children] else []) ++
      collectTagList target children
/-- `collectTag` over a forest. -/
def collectTagList (target : String) : List XNode → List XNode
  | [] => []
  | n :: ns => collectTag target n ++ collectTagList target ns
end

/-! ### generate_qti_item_xml -/

/-- One `response_label` element: ident `choice{i+1}` with the choice html. -/
def responseLabel (i : Nat) (choice_html : String) : XNode :=
  .elem "response_label" [("ident", "choice" ++ natStr (i + 1))] none
    [.elem "material" [] none
      [.elem "mattext" [("texttype", "text/html")] (some choice_html) []]]

/-- The `render_choice` element holding one label per choice, built with
`enumerate` over the processed choice htmls. -/
def renderChoiceNode (choice_htmls : List String) : XNode :=
  .elem "render_choice" [] none
    ((pyEnum 0 choice_htmls).map (fun p => responseLabel p.1 p.2))

/-- The `presentation` element: prompt material and the response block. -/
def presentationNode (prompt_html : String) (choice_htmls : List String) : XNode :=
  .elem "presentation" [] none
    [.elem "material" [] none
      [.elem "mattext" [("texttype", "text/html")] (some prompt_html) []],
     .elem "response_lid" [("ident", "response1"), ("rcardinality", "Single")] none
      [renderChoiceNode choice_htmls]]

/-- The `resprocessing` element: outcomes plus the scoring condition that
awards 100 when the response equals `correct_ident`. -/
def resprocessingNode (correct_ident : String) : XNode :=
  .elem "resprocessing" [] none
    [.elem "outcomes" [] none
      [.elem "decvar"
        [("varname", "SCORE"), ("vartype", "Decimal"), ("minvalue", "0"),
         ("maxvalue", "100"), ("cutvalue", "50")] none []],
     .elem "respcondition" [("continue", "No")] none
      [.elem "conditionvar" [] none
        [.elem "varequal" [("respident", "response1")] (some correct_ident) []],
       .elem "setvar" [("action", "Set")] (some "100") [],
       .elem "displayfeedback" [("feedbacktype", "Response"), ("linkrefid", "correct")] none []]]

/-- The `item` element. -/
def itemNode (question_id prompt_html : String) (choice_htmls : List String)
    (correct_ident : String) : XNode :=
  .elem "item" [("ident", question_id), ("title", question_id)] none
    [presentationNode prompt_html choice_htmls, resprocessingNode correct_ident]

/-- The `questestinterop`/`assessment`/`section` wrapper. -/
def qtiWrap (item : XNode) : XNode :=
  .elem "questestinterop" [] none
    [.elem "assessment" [("title", "My Quiz")] none
      [.elem "section" [("ident", "root_section")] none [item]]]

/-- The per-choice loop of `generate_qti_item_xml`: processes every choice
through `process_text_with_latex`, threading the image index. -/
def processChoices (latex_images : List (String × String)) :
    List String → Nat → Except PyErr (List String × Nat)
  | [], i => .ok ([], i)
  | c :: rest, i =>
    match process_text_with_latex c latex_images i with
    | .error e => .error e
    | .ok (h, i') =>
      match processChoices latex_images rest i' with
      | .error e => .error e
      | .ok (hs, j) => .ok (h :: hs, j)

/-- The element tree `generate_qti_item_xml` builds before serialisation.
Failure points in source order: `process_text_with_latex` on the prompt, then
on each choice (`IndexError` when `latex_images` runs out), then
`choices.index(correct)` (`ValueError` when no choice equals `correct`). -/
def itemTreeOf (question_id prompt : String) (choices : List String) (correct : String)
    (latex_images : List (String × String)) : Except PyErr XNode :=
  match process_text_with_latex prompt latex_images 0 with
  | .error e => .error e
  | .ok (prompt_html, i1) =>
    match processChoices latex_images choices i1 with
    | .error e => .error e
    | .ok (choice_htmls, _) =>
      match listIndex correct choices with
      | none => .error (PyErr.valueError ("\x27" ++ correct ++ "\x27 is not in list"))
      | some correct_index =>
        .ok (qtiWrap (itemNode question_id prompt_html choice_htmls
          ("choice" ++ natStr (correct_index + 1))))

/-! ### Serialisation (`prettify`) -/

/-- lxml's serialiser escapes `&`, `<`, `>` in text content. -/
def escapeXml (s : String) : String :=
  pyReplace (pyReplace (pyReplace s "&" "&amp;") "<" "&lt;") ">" "&gt;"

/-- Attribute values additionally escape double quotes. -/
def escapeAttr (s : String) : String := pyReplace (escapeXml s) "\"" "&quot;"

/-- Serialised attribute list. -/
def attrsStr (attrs : List (String × String)) : String :=
  attrs.foldl (fun acc a => acc ++ " " ++ a.1 ++ "=\"" ++ escapeAttr a.2 ++ "\"") ""

/-- Two-space indentation at the given depth. -/
def padStr (ind : Nat) : String := String.mk (List.replicate (2 * ind) ' ')

mutual
/-- Models `lxml.etree.tostring(..., pretty_print=True)` on the trees built
here: one element per line, two-space indentation, childless elements
self-closing, text-only elements inline. -/
def serializeNode (ind : Nat) : XNode → String
  | .elem tag attrs text children =>
    let pad := padStr ind
    let astr := attrsStr attrs
    match text, children with
    | none, [] => pad ++ "<" ++ tag ++ astr ++ "/>\n"
    | some t, [] => pad ++ "<" ++ tag ++ astr ++ ">" ++ escapeXml t ++ "</" ++ tag ++ ">\n"
    | none, _ :: _ =>
      pad ++ "<" ++ tag ++ astr ++ ">\n" ++ serializeList (ind + 1) children ++
        pad ++ "</" ++ tag ++ ">\n"
    | some t, _ :: _ =>
      pad ++ "<" ++ tag ++ astr ++ ">" ++ escapeXml t ++ "\n" ++
        serializeList (ind + 1) children ++ pad ++ "</" ++ tag ++ ">\n"
/-- Serialise a forest of siblings. -/
def serializeList (ind : Nat) : List XNode → String
  | [] => ""
  | n :: ns => serializeNode ind n ++ serializeList ind ns
end

/-- `prettify` from the source: serialise with an XML declaration, then undo
the entity escaping of `<`, `>`, `&` and strip `ns0:` prefixes, exactly as
the chained `str.replace` calls do. -/
def prettify (elem : XNode) : String :=
  let xml_str := "<?xml version=\x271.0\x27 encoding=\x27utf-8\x27?>\n" ++ serializeNode 0 elem
  let s1 := pyReplace (pyReplace (pyReplace xml_str "&lt;" "<") "&gt;" ">") "&amp;" "&"
  pyReplace (pyReplace s1 "ns0:" "") "/ns0:" ""

/-- `generate_qti_item_xml` from the source: the serialised QTI 1.2 document
for one multiple-choice question. -/
def generate_qti_item_xml (question_id prompt : String) (choices : List String)
    (correct : String) (latex_images : List (String × String)) : Except PyErr String :=
  match itemTreeOf question_id prompt choices correct latex_images with
  | .error e => .error e
  | .ok t => .ok (prettify t)

/-! ### generate_manifest_xml -/

/-- One `resource` entry of the manifest (the source nests one `file` entry
for the item plus one per image file).  Namespaced lxml tags are modelled by
their serialised names; the manifest's bytes are not the subject of any
claim. -/
def resourceElem (image_files : List String) (fi : String × String) : XNode :=
  .elem "resource"
    [("identifier", fi.2), ("type", "imsqti_xmlv1p2"), ("href", fi.1)] none
    (.elem "file" [("href", fi.1)] none [] ::
      image_files.map (fun im => .elem "file" [("href", "images/" ++ baseName im)] none []))

/-- `generate_manifest_xml` from the source. -/
def generate_manifest_xml (items : List (String × String)) (image_files : List String) : String :=
  prettify
    (.elem "manifest"
      [("xsi:schemaLocation",
        "http://www.imsglobal.org/xsd/imscp_v1p1 imscp_v1p1.xsd http://www.imsglobal.org/xsd/imsqti_v1p2 imsqti_v1p2.xsd"),
       ("identifier", "man00001")] none
      [.elem "organizations" [] none [],
       .elem "resources" [] none (items.map (resourceElem image_files))])

/-! ### create_qti_package

File-system effects are made explicit: `stagingFiles` holds the files under
`qti_temp` (path, content), `zipFiles` the archives written so far.
Directories are implicit in paths; `stagingExists` tracks whether the staging
directory exists. -/

/-- The file-system state threaded through `create_qti_package`. -/
structure FS where
  stagingExists : Bool
  stagingFiles : List (String × String)
  zipFiles : List (String × List (String × String))

/-- Write (or overwrite) one file. -/
def fsWrite (fs : FS) (path content : String) : FS :=
  { fs with stagingFiles := fs.stagingFiles.filter (fun f => f.1 != path) ++ [(path, content)] }

/-- `save_latex_image` from the source: skips blank expressions; rendering is
the external matplotlib collaborator, so the written image content is
abstracted to a placeholder (and any rendering exception is caught by the
source, so saving never propagates an error). -/
def save_latex_image (fs : FS) (latex_str image_filename : String) : FS :=
  if pyStrip latex_str = "" then fs else fsWrite fs image_filename "PNG"

/-- The per-question loop of `create_qti_package`: stages images and the item
XML for each question, accumulating manifest entries and image paths; an item
encoding error propagates immediately, leaving the file system as the loop
left it. -/
def packLoop (md5hex : String → String) :
    List (Nat × ConcreteQuestion) → FS → List (String × String) → List String →
    Except PyErr (List (String × String) × List String) × FS
  | [], fs, items, imgs => (.ok (items, imgs), fs)
  | (i, q) :: rest, fs, items, imgs =>
    let file_name := "question" ++ natStr (i + 1) ++ ".xml"
    let items' := items ++ [(file_name, q.id)]
    let latex_images := generate_latex_images md5hex q.prompt q.choices q.id
    let fsI := latex_images.foldl
      (fun acc im => save_latex_image acc im.1 ("qti_temp/images/" ++ im.2)) fs
    let imgs' := imgs ++ latex_images.map (fun im => "qti_temp/images/" ++ im.2)
    match generate_qti_item_xml q.id q.prompt q.choices q.correct latex_images with
    | .error e => (.error e, fsI)
    | .ok xml => packLoop md5hex rest (fsWrite fsI ("qti_temp/" ++ file_name) xml) items' imgs'

/-- `create_qti_package` from the source: make the staging directory, stage
every item document and image, write the manifest, zip the staging tree with
paths relative to the staging root, then delete the staging directory.  There
is no `try`/`finally` in the source: an error raised while encoding an item
propagates with the staging state exactly as the loop left it. -/
def create_qti_package (md5hex : String → String) (questions : List ConcreteQuestion)
    (fs : FS) : Except PyErr String × FS :=
  let fs1 : FS := { fs with stagingExists := true }
  match packLoop md5hex (pyEnum 0 questions) fs1 [] [] with
  | (.error e, fs') => (.error e, fs')
  | (.ok (manifest_items, image_files), fs') =>
    let fs2 := fsWrite fs' "qti_temp/imsmanifest.xml"
      (generate_manifest_xml manifest_items image_files)
    let entries := fs2.stagingFiles.map (fun f => (String.mk (f.1.data.drop 9), f.2))
    let fs3 : FS := { fs2 with zipFiles := fs2.zipFiles ++ [("qti_package.zip", entries)] }
    let fs4 : FS := { fs3 with stagingFiles := [], stagingExists := false }
    (.ok "qti_package.zip", fs4)

/-! ### The id-generation loop of `main`

`main` keeps one `version_id` counter for the whole run, starting at 1 and
incremented once per generated instance across the nested
`for q in questions: for _ in range(N)` loops (the source instantiates
`N = 1`; the loop structure is modelled for any variant count `N`).  The
instance id itself is built by `process_question` as `instanceId`. -/

/-- The `(template id, version counter)` pairs in generation order. -/
def variantPairs (variants : Nat) : List String → Nat → List (String × Nat)
  | [], _ => []
  | t :: ts, v =>
    (List.range variants).map (fun j => (t, v + j)) ++ variantPairs variants ts (v + variants)

/-- All instance ids generated by one run of `main` over the given template
ids with `variants` versions per template. -/
def mainIds (template_ids : List String) (variants : Nat) : List String :=
  (variantPairs variants template_ids 1).map (fun p => instanceId p.1 p.2)

/-! ### Accessors used to state properties of emitted item documents -/

/-- The `ident` attributes of all `response_label` elements of an emitted
item document (empty when encoding failed). -/
def respLabelIdents : Except PyErr XNode → List String
  | .ok t => (collectTag "response_label" t).map identAttr
  | .error _ => []

/-- The texts of all `varequal` elements (the scoring rule's credited
response identifiers) of an emitted item document. -/
def varequalTexts : Except PyErr XNode → List String
  | .ok t => (collectTag "varequal" t).map textOf
  | .error _ => []

/-! ## Lemmas -/

theorem countLatex_nil : countLatex [] = 0 := rfl

theorem countLatex_cons (b : Bool) (cs : List Char) (rest : List (Bool × List Char)) :
    countLatex ((b, cs) :: rest) = countLatex rest + (if b then 1 else 0) := by
  simp [countLatex, List.countP_cons]

/-- `buildHtml` succeeds whenever the image list covers every math segment,
returning the advanced index. -/
theorem buildHtml_ok (imgs : List (String × String)) :
    ∀ (segs : List (Bool × List Char)) (i : Nat), i + countLatex segs ≤ imgs.length →
      ∃ h, buildHtml imgs segs i = .ok (h, i + countLatex segs) := by
  intro segs
  induction segs with
  | nil => intro i _; exact ⟨"", by simp [buildHtml, countLatex_nil]⟩
  | cons seg rest ih =>
    intro i hle
    obtain ⟨b, cs⟩ := seg
    cases b with
    | false =>
      have hc : countLatex ((false, cs) :: rest) = countLatex rest := by
        simp [countLatex, List.countP_cons]
      rw [hc] at hle ⊢
      obtain ⟨h, hh⟩ := ih i hle
      exact ⟨String.mk cs ++ h, by simp [buildHtml, hh]⟩
    | true =>
      have hc : countLatex ((true, cs) :: rest) = countLatex rest + 1 := by
        simp [countLatex, List.countP_cons]
      rw [hc] at hle ⊢
      have hi : i < imgs.length := by omega
      obtain ⟨h, hh⟩ := ih (i + 1) (by omega)
      simp only [buildHtml, List.getElem?_eq_getElem hi, hh]
      rw [show i + (countLatex rest + 1) = i + 1 + countLatex rest by omega]
      exact ⟨_, rfl⟩

/-- `processChoices` succeeds whenever the image list covers every math
segment of every choice, and returns one html per choice. -/
theorem processChoices_ok (imgs : List (String × String)) :
    ∀ (cs : List String) (i : Nat), i + (cs.map nSeg).sum ≤ imgs.length →
      ∃ hs, processChoices imgs cs i = .ok (hs, i + (cs.map nSeg).sum) ∧
        hs.length = cs.length := by
  intro cs
  induction cs with
  | nil => intro i _; exact ⟨[], by simp [processChoices], rfl⟩
  | cons c rest ih =>
    intro i hle
    simp only [List.map_cons, List.sum_cons] at hle ⊢
    obtain ⟨h, hh⟩ := buildHtml_ok imgs (segmentsOf c) i (by
      have : countLatex (segmentsOf c) = nSeg c := rfl
      omega)
    obtain ⟨hs, hhs, hlen⟩ := ih (i + nSeg c) (by omega)
    refine ⟨h :: hs, ?_, by simp [hlen]⟩
    have hh' : process_text_with_latex c imgs i = .ok (h, i + nSeg c) := hh
    simp only [processChoices, hh', hhs]
    have : i + nSeg c + (rest.map nSeg).sum = i + (nSeg c + (rest.map nSeg).sum) := by omega
    rw [this]

/-- `processChoices` returns one processed html per choice. -/
theorem processChoices_length (imgs : List (String × String)) :
    ∀ (cs : List String) (i : Nat) (hs : List String) (j : Nat),
      processChoices imgs cs i = .ok (hs, j) → hs.length = cs.length := by
  intro cs
  induction cs with
  | nil => intro i hs j h; simp only [processChoices] at h; cases h; rfl
  | cons c rest ih =>
    intro i hs j h
    simp only [processChoices] at h
    cases hp : process_text_with_latex c imgs i with
    | error e => simp only [hp] at h; exact Except.noConfusion h
    | ok hi =>
      obtain ⟨h1, i2⟩ := hi
      simp only [hp] at h
      cases hr : processChoices imgs rest i2 with
      | error e => simp only [hr] at h; exact Except.noConfusion h
      | ok hsj =>
        obtain ⟨hs2, j2⟩ := hsj
        simp only [hr] at h
        cases h
        have := ih i2 hs2 _ hr
        simp [List.length_cons, this]

/-- Python's `list.index` finds an index exactly when the element is present. -/
theorem listIndex_isSome_iff_mem (x : String) :
    ∀ (l : List String), (listIndex x l).isSome = true ↔ x ∈ l := by
  intro l
  induction l with
  | nil => simp [listIndex]
  | cons a l ih =>
    by_cases h : a = x
    · subst h; simp [listIndex]
    · have hmap : ((listIndex x l).map (· + 1)).isSome = (listIndex x l).isSome := by
        cases listIndex x l <;> rfl
      simp only [listIndex, if_neg h, hmap, ih, List.mem_cons]
      constructor
      · exact Or.inr
      · rintro (he | hm)
        · exact absurd he.symm h
        · exact hm

/-! ## Claim C1 -/

/-- C1 counterexample: with choices `["a", "a"]` and `correct = "a"`, the
expanded `correct` text equals two choices, yet `generate_qti_item_xml`
emits an item document (no `ScoringMismatch`-style failure), refuting the
claim that an item is emitted only when `correct` equals exactly one
choice. -/
theorem c1_counterexample :
    ((["a", "a"] : List String).countP (fun c => c == "a") = 2) ∧
      (generate_qti_item_xml "q1" "p" ["a", "a"] "a" []).isOk = true :=
  ⟨rfl, rfl⟩

/-- C1 (amended): given a math-image list covering every math segment, the
item encoder fails (with the `ValueError` of `choices.index`) exactly when no
choice equals `correct`; whenever at least one choice textually equals
`correct` — even several — an item document is emitted (scored to the first
match). -/
theorem c1_amended (question_id prompt : String) (choices : List String) (correct : String)
    (latex_images : List (String × String))
    (himg : nSeg prompt + (choices.map nSeg).sum ≤ latex_images.length) :
    (generate_qti_item_xml question_id prompt choices correct latex_images).isOk = true ↔
      correct ∈ choices := by
  have hiso : (generate_qti_item_xml question_id prompt choices correct latex_images).isOk
      = (itemTreeOf question_id prompt choices correct latex_images).isOk := by
    unfold generate_qti_item_xml
    cases itemTreeOf question_id prompt choices correct latex_images <;> rfl
  rw [hiso]
  obtain ⟨ph, hph⟩ := buildHtml_ok latex_images (segmentsOf prompt) 0 (by
    have : countLatex (segmentsOf prompt) = nSeg prompt := rfl
    omega)
  obtain ⟨hs, hhs, _⟩ := processChoices_ok latex_images choices (0 + countLatex (segmentsOf prompt))
    (by
      have : countLatex (segmentsOf prompt) = nSeg prompt := rfl
      omega)
  have hph' : process_text_with_latex prompt latex_images 0
      = .ok (ph, 0 + countLatex (segmentsOf prompt)) := hph
  simp only [itemTreeOf, hph', hhs]
  cases hli : listIndex correct choices with
  | none =>
    have hmem : ¬ correct ∈ choices := by
      intro hm
      have hsm := (listIndex_isSome_iff_mem correct choices).mpr hm
      rw [hli] at hsm
      simp at hsm
    simp [Except.isOk, Except.toBool, hmem]
  | some ci =>
    have hmem : correct ∈ choices := by
      have hsm := listIndex_isSome_iff_mem correct choices
      rw [hli] at hsm
      simpa using hsm.mp rfl
    simp [Except.isOk, Except.toBool, hmem]

/-- C1 amended witness at a concrete input. -/
theorem c1_amended_witness :
    (generate_qti_item_xml "q1" "p" ["a"] "a" []).isOk = true ↔ "a" ∈ (["a"] : List String) :=
  c1_amended "q1" "p" ["a"] "a" [] (by decide)

/-! ## Claim C3 -/

/-- C3 counterexample: `"a$b$c$"` contains an odd number (3) of `$`
delimiters, yet extraction reports no malformed-input error:
`process_text_with_latex` returns normally with the unpaired trailing
fragment `"c$"` passed through verbatim into the html, and
`generate_latex_images` silently extracts only the paired segment. -/
theorem c3_counterexample :
    (("a$b$c$" : String).data.countP (fun ch => ch == '$') % 2 = 1) ∧
      process_text_with_latex "a$b$c$" [("b", "f.png")] 0 =
        .ok ("a" ++ imgTag "f.png" ++ "c$", 1) ∧
      generate_latex_images (fun _ => "hhhhhhhh") "a$b$c$" [] "q1" =
        [("b", "hhhhhhhh.png")] :=
  ⟨rfl, rfl, rfl⟩

/-- C3 (amended): on a text with an odd number of `$` delimiters, extraction
does not report a malformed-input error: given rendering references for the
paired segments, `process_text_with_latex` returns normally (the trailing
unpaired fragment is passed through as ordinary text, as the counterexample
shows concretely). -/
theorem c3_amended (s : String) (latex_images : List (String × String))
    (hodd : s.data.countP (fun ch => ch == '$') % 2 = 1)
    (himg : nSeg s ≤ latex_images.length) :
    ∃ html k, process_text_with_latex s latex_images 0 = .ok (html, k) := by
  obtain ⟨h, hh⟩ := buildHtml_ok latex_images (segmentsOf s) 0 (by
    have : countLatex (segmentsOf s) = nSeg s := rfl
    omega)
  exact ⟨h, _, hh⟩

/-- C3 amended witness at a concrete odd-delimiter input. -/
theorem c3_amended_witness :
    ∃ html k, process_text_with_latex "$a$b$" [("a", "h.png")] 0 = .ok (html, k) :=
  c3_amended "$a$b$" [("a", "h.png")] (by decide) (by decide)

/-! ## Claim C5 -/

/-- C5: encoding the same Concrete Question Instance twice produces
byte-identical item-document output.  The embedded encoder is a pure function
of its five arguments — the source consults no hash/dict iteration order that
is not an explicitly ordered structure — so equal arguments give equal
bytes. -/
theorem c5_deterministic (question_id₁ question_id₂ prompt₁ prompt₂ : String)
    (choices₁ choices₂ : List String) (correct₁ correct₂ : String)
    (latex_images₁ latex_images₂ : List (String × String))
    (hq : question_id₁ = question_id₂) (hp : prompt₁ = prompt₂)
    (hc : choices₁ = choices₂) (hco : correct₁ = correct₂)
    (hi : latex_images₁ = latex_images₂) :
    generate_qti_item_xml question_id₁ prompt₁ choices₁ correct₁ latex_images₁ =
      generate_qti_item_xml question_id₂ prompt₂ choices₂ correct₂ latex_images₂ := by
  subst hq hp hc hco hi
  rfl

/-- C5 witness at a concrete instance. -/
theorem c5_deterministic_witness :
    generate_qti_item_xml "q1" "What is $x$?" ["2", "4"] "4" [("x", "abc.png")] =
      generate_qti_item_xml "q1" "What is $x$?" ["2", "4"] "4" [("x", "abc.png")] :=
  c5_deterministic "q1" "q1" "What is $x$?" "What is $x$?" ["2", "4"] ["2", "4"] "4" "4"
    [("x", "abc.png")] [("x", "abc.png")] rfl rfl rfl rfl rfl

/-! ## Claim C7 -/

/-- Every pair emitted by the extraction loop carries the filename computed
by `sanitize_latex_expr` from its own expression. -/
theorem latexImagesOfTexts_snd (md5hex : String → String) :
    ∀ (ts : List String) (pr : String × String), pr ∈ latexImagesOfTexts md5hex ts →
      pr.2 = sanitize_latex_expr md5hex pr.1 := by
  intro ts
  induction ts with
  | nil => intro pr h; simp [latexImagesOfTexts] at h
  | cons t ts ih =>
    intro pr h
    simp only [latexImagesOfTexts, List.mem_append, List.mem_map] at h
    rcases h with ⟨e, _, rfl⟩ | h
    · rfl
    · exact ih pr h

/-- C7: within one question's extraction output the same source-expression
string always maps to the same rendering-reference: any two entries of
`generate_latex_images` with equal expressions carry equal filenames
(`sanitize_latex_expr` is a function of the expression alone). -/
theorem c7_content_addressing (md5hex : String → String) (prompt : String)
    (choices : List String) (question_id : String) (e f₁ f₂ : String)
    (h₁ : (e, f₁) ∈ generate_latex_images md5hex prompt choices question_id)
    (h₂ : (e, f₂) ∈ generate_latex_images md5hex prompt choices question_id) :
    f₁ = f₂ := by
  have g₁ := latexImagesOfTexts_snd md5hex (prompt :: choices) (e, f₁) h₁
  have g₂ := latexImagesOfTexts_snd md5hex (prompt :: choices) (e, f₂) h₂
  simp only at g₁ g₂
  rw [g₁, g₂]

/-- C7 witness: the expression `x` occurs twice in `"$x$a$x$"`; both
occurrences carry the same filename. -/
theorem c7_content_addressing_witness :
    sanitize_latex_expr (fun s => s ++ "00000000") "x" =
      sanitize_latex_expr (fun s => s ++ "00000000") "x" :=
  c7_content_addressing (fun s => s ++ "00000000") "$x$a$x$" [] "q" "x"
    (sanitize_latex_expr (fun s => s ++ "00000000") "x")
    (sanitize_latex_expr (fun s => s ++ "00000000") "x")
    (by decide) (by decide)

/-! ## Claim C9 -/

/-- The randomisation loop fails with the empty-domain error as soon as any
variable's candidate list is empty. -/
theorem drawValues_error (rand : Nat → Nat) :
    ∀ (l : List (String × List Int)) (k : Nat), (∃ pr ∈ l, pr.2 = []) →
      drawValues rand l k = .error emptyChoiceErr := by
  intro l
  induction l with
  | nil => intro k h; simp at h
  | cons nv rest ih =>
    intro k h
    obtain ⟨n, vs⟩ := nv
    rcases vs with _ | ⟨v, tl⟩
    · simp [drawValues, randomChoice]
    · obtain ⟨pr, hmem, hnil⟩ := h
      rcases List.mem_cons.mp hmem with rfl | hmem2
      · simp at hnil
      · have hrest := ih (k + 1) ⟨pr, hmem2, hnil⟩
        simp [drawValues, randomChoice, hrest]

/-- C9: a template with a variable whose candidate set is empty is rejected:
for every random source and evaluator, `process_question` fails with the
empty-domain error raised by `random.choice` (the spec's `EmptyDomain`
condition) and produces no instance. -/
theorem c9_empty_domain (evalFn : String → String) (rand : Nat → Nat)
    (question : Question) (version_id : Nat)
    (h : ∃ pr ∈ question.vars, pr.2 = []) :
    (process_question evalFn rand question version_id).1 = .error emptyChoiceErr := by
  have hd := drawValues_error rand question.vars 0 h
  simp [process_question, hd]

/-- C9 witness at a concrete template with an empty candidate set. -/
theorem c9_empty_domain_witness :
    (process_question (fun s => s) (fun _ => 0)
        { id := "q", prompt := "p", choices := [], correct := "c", vars := [("x", [])] } 1).1 =
      .error emptyChoiceErr :=
  c9_empty_domain (fun s => s) (fun _ => 0) _ 1 ⟨("x", []), by simp, rfl⟩

/-! ## Claim C10 -/

/-- C10: `process_question` never mutates its input template: the question
record threaded through the call (every statement of the source only reads
its fields; `str.replace` returns fresh strings) is returned unchanged on
every exit path, so its id, prompt, choices, correct and variable domains are
intact for later variants. -/
theorem c10_no_mutation (evalFn : String → String) (rand : Nat → Nat)
    (question : Question) (version_id : Nat) :
    (process_question evalFn rand question version_id).2 = question := by
  unfold process_question
  cases drawValues rand question.vars 0 <;> rfl

/-! ## Claim C2 -/

/-- C2 (code bug): the source calls `evaluate_embedded_expressions` inside
the per-variable substitution loop for the prompt (generator.py line 101) but
only after the full loop for each choice and for `correct`.  With prompt,
sole choice and `correct` all equal to `eval{~x+~y}` and the assignment
`x = 2, y = 4`, the choice and `correct` become `"6"` — as does the claimed
uniform substitute-all-then-evaluate transformation (`expandField`) — but the
emitted prompt is the evaluation-error text produced because `eval` saw
`2+~y` before `~y` was substituted: the three fields are not transformed
identically. -/
theorem c2_prompt_eval_order_bug :
    (process_question pyEvalArith (fun _ => 0)
        { id := "q1", prompt := "eval\x7b~x+~y\x7d", choices := ["eval\x7b~x+~y\x7d"],
          correct := "eval\x7b~x+~y\x7d", vars := [("x", [2]), ("y", [4])] } 1).1 =
      .ok { id := "q1_v1", prompt := "[eval error: name \x27y\x27 is not defined]",
            choices := ["6"], correct := "6" } ∧
      expandField pyEvalArith [("x", 2), ("y", 4)] "eval\x7b~x+~y\x7d" = "6" :=
  ⟨rfl, rfl⟩

/-! ## Claim C4 -/

theorem fsWrite_stagingExists (fs : FS) (p c : String) :
    (fsWrite fs p c).stagingExists = fs.stagingExists := rfl

theorem save_latex_image_stagingExists (fs : FS) (l f : String) :
    (save_latex_image fs l f).stagingExists = fs.stagingExists := by
  unfold save_latex_image
  split <;> rfl

theorem foldl_save_stagingExists (l : List (String × String)) :
    ∀ (fs : FS),
      (l.foldl (fun acc im => save_latex_image acc im.1 ("qti_temp/images/" ++ im.2))
        fs).stagingExists = fs.stagingExists := by
  induction l with
  | nil => intro fs; rfl
  | cons im rest ih =>
    intro fs
    simp only [List.foldl_cons]
    rw [ih, save_latex_image_stagingExists]

/-- The staging loop never creates or removes the staging directory — it only
writes files — so its final state keeps the incoming `stagingExists` flag on
both the normal and the error exit. -/
theorem packLoop_stagingExists (md5hex : String → String) :
    ∀ (qs : List (Nat × ConcreteQuestion)) (fs : FS) (items : List (String × String))
      (imgs : List String),
      (packLoop md5hex qs fs items imgs).2.stagingExists = fs.stagingExists := by
  intro qs
  induction qs with
  | nil => intro fs items imgs; rfl
  | cons iq rest ih =>
    intro fs items imgs
    obtain ⟨i, q⟩ := iq
    simp only [packLoop]
    cases hx : generate_qti_item_xml q.id q.prompt q.choices q.correct
        (generate_latex_images md5hex q.prompt q.choices q.id) with
    | error e =>
      simp only [hx]
      exact foldl_save_stagingExists _ fs
    | ok xml =>
      simp only [hx]
      rw [ih, fsWrite_stagingExists]
      exact foldl_save_stagingExists _ fs

/-- C4 counterexample: packaging a question whose `correct` matches no choice
raises the encoder's error after the staging directory was created, and
`create_qti_package` propagates it without any cleanup: the staging directory
is left on disk on this exit path. -/
theorem c4_counterexample :
    (create_qti_package (fun _ => "h")
        [{ id := "q1", prompt := "p", choices := ["a"], correct := "b" }]
        { stagingExists := false, stagingFiles := [], zipFiles := [] }).1.isOk = false ∧
      (create_qti_package (fun _ => "h")
        [{ id := "q1", prompt := "p", choices := ["a"], correct := "b" }]
        { stagingExists := false, stagingFiles := [], zipFiles := [] }).2.stagingExists = true :=
  ⟨rfl, rfl⟩

/-- C4 (amended): the staging directory is removed on the normal-completion
path only.  For every input, after `create_qti_package` the staging directory
exists exactly when the run failed: success ends with the scoped cleanup, but
an error raised during item encoding propagates without removing the staging
directory (the source has no `try`/`finally`). -/
theorem c4_amended (md5hex : String → String) (questions : List ConcreteQuestion) (fs : FS) :
    (create_qti_package md5hex questions fs).2.stagingExists =
      !(create_qti_package md5hex questions fs).1.isOk := by
  have hst := packLoop_stagingExists md5hex (pyEnum 0 questions)
    { fs with stagingExists := true } [] []
  cases hp : packLoop md5hex (pyEnum 0 questions) { fs with stagingExists := true } [] [] with
  | mk r fs2 =>
    rw [hp] at hst
    cases r with
    | error e =>
      simp only [create_qti_package, hp, Except.isOk, Except.toBool]
      exact hst
    | ok pair =>
      simp only [create_qti_package, hp, Except.isOk, Except.toBool]
      rfl

/-! ## Claim C6 -/

theorem collectTagList_labels :
    ∀ (l : List (Nat × String)),
      collectTagList "response_label" (l.map (fun p => responseLabel p.1 p.2)) =
        l.map (fun p => responseLabel p.1 p.2) := by
  intro l
  induction l with
  | nil => rfl
  | cons p rest ih =>
    simp only [List.map_cons, collectTagList]
    rw [ih]
    rfl

theorem collectTagList_labels_varequal :
    ∀ (l : List (Nat × String)),
      collectTagList "varequal" (l.map (fun p => responseLabel p.1 p.2)) = [] := by
  intro l
  induction l with
  | nil => rfl
  | cons p rest ih =>
    simp only [List.map_cons, collectTagList]
    rw [ih]
    rfl

theorem collectTag_item_labels (qid ph : String) (chs : List String) (ci : String) :
    collectTag "response_label" (qtiWrap (itemNode qid ph chs ci)) =
      (pyEnum 0 chs).map (fun p => responseLabel p.1 p.2) := by
  simp only [qtiWrap, itemNode, presentationNode, renderChoiceNode, resprocessingNode,
    collectTag, collectTagList, List.append_nil, List.nil_append,
    collectTagList_labels]
  simp

theorem collectTag_item_varequal (qid ph : String) (chs : List String) (ci : String) :
    collectTag "varequal" (qtiWrap (itemNode qid ph chs ci)) =
      [XNode.elem "varequal" [("respident", "response1")] (some ci) []] := by
  simp only [qtiWrap, itemNode, presentationNode, renderChoiceNode, resprocessingNode,
    collectTag, collectTagList, List.append_nil, List.nil_append,
    collectTagList_labels_varequal]
  simp

theorem pyEnum_map_fst (g : Nat → String) :
    ∀ (l : List String) (i : Nat),
      (pyEnum i l).map (fun p => g p.1) = (List.range l.length).map (fun j => g (i + j)) := by
  intro l
  induction l with
  | nil => intro i; rfl
  | cons a l ih =>
    intro i
    simp only [pyEnum, List.map_cons, List.length_cons, List.range_succ_eq_map, List.map_map]
    rw [ih (i + 1)]
    have hfun : (fun j => g (i + 1 + j)) = (fun j => g (i + Nat.succ j)) := by
      funext j
      congr 1
      omega
    rw [hfun]
    have h0 : g i = g (i + 0) := rfl
    rw [← h0]
    rfl

theorem itemTreeOf_eq (question_id prompt : String) (choices : List String) (correct : String)
    (latex_images : List (String × String)) (ph : String) (i1 : Nat) (chs : List String)
    (j k : Nat)
    (hph : process_text_with_latex prompt latex_images 0 = .ok (ph, i1))
    (hch : processChoices latex_images choices i1 = .ok (chs, j))
    (hfind : listIndex correct choices = some k) :
    itemTreeOf question_id prompt choices correct latex_images =
      .ok (qtiWrap (itemNode question_id ph chs ("choice" ++ natStr (k + 1)))) := by
  unfold itemTreeOf
  simp only [hph, hch, hfind]

theorem itemTreeOf_stages (question_id prompt : String) (choices : List String)
    (correct : String) (latex_images : List (String × String))
    (hok : (itemTreeOf question_id prompt choices correct latex_images).isOk = true) :
    ∃ ph i1 chs j, process_text_with_latex prompt latex_images 0 = .ok (ph, i1) ∧
      processChoices latex_images choices i1 = .ok (chs, j) := by
  unfold itemTreeOf at hok
  cases hph : process_text_with_latex prompt latex_images 0 with
  | error e => rw [hph] at hok; simp [Except.isOk, Except.toBool] at hok
  | ok phi =>
    obtain ⟨ph, i1⟩ := phi
    simp only [hph] at hok
    cases hch : processChoices latex_images choices i1 with
    | error e => rw [hch] at hok; simp [Except.isOk, Except.toBool] at hok
    | ok chsj =>
      obtain ⟨chs, j⟩ := chsj
      exact ⟨ph, i1, chs, j, rfl, hch⟩

/-- C6: when the emitted item document exists and `correct` equals exactly
one choice (the one at index `k`, see `hfind`/`hcount`), the document holds
one `response_label` per choice with identifiers `choice1, choice2, …` in the
original choice order, and its scoring rule's `varequal` credits exactly the
identifier `choice(k+1)` of the choice textually equal to `correct`. -/
theorem c6_scoring (question_id prompt : String) (choices : List String) (correct : String)
    (latex_images : List (String × String)) (k : Nat)
    (hok : (itemTreeOf question_id prompt choices correct latex_images).isOk = true)
    (hfind : listIndex correct choices = some k)
    (hcount : choices.countP (fun x => x == correct) = 1) :
    respLabelIdents (itemTreeOf question_id prompt choices correct latex_images) =
      (List.range choices.length).map (fun i => "choice" ++ natStr (i + 1)) ∧
      varequalTexts (itemTreeOf question_id prompt choices correct latex_images) =
        ["choice" ++ natStr (k + 1)] := by
  obtain ⟨ph, i1, chs, j, hph, hch⟩ :=
    itemTreeOf_stages question_id prompt choices correct latex_images hok
  have hlen := processChoices_length latex_images choices i1 chs j hch
  rw [itemTreeOf_eq question_id prompt choices correct latex_images ph i1 chs j k hph hch hfind]
  simp only [respLabelIdents, varequalTexts]
  rw [collectTag_item_labels, collectTag_item_varequal]
  constructor
  · rw [List.map_map]
    have hcomp : (identAttr ∘ fun p : Nat × String => responseLabel p.1 p.2) =
        (fun p : Nat × String => "choice" ++ natStr (p.1 + 1)) := by
      funext p
      rfl
    rw [hcomp]
    rw [pyEnum_map_fst (fun n => "choice" ++ natStr (n + 1)) chs 0]
    rw [hlen]
    have hz : (fun j => "choice" ++ natStr (0 + j + 1)) =
        (fun j : Nat => "choice" ++ natStr (j + 1)) := by
      funext j
      congr 2
      omega
    rw [hz]
  · rfl

/-- C6 witness at a concrete instance (three choices, the third equal to
`correct`): identifiers `choice1..choice3` in order, scoring credits
`choice3`. -/
theorem c6_scoring_witness :
    respLabelIdents (itemTreeOf "q1" "p" ["a", "b", "c"] "c" []) =
      (List.range (["a", "b", "c"] : List String).length).map
        (fun i => "choice" ++ natStr (i + 1)) ∧
      varequalTexts (itemTreeOf "q1" "p" ["a", "b", "c"] "c" []) =
        ["choice" ++ natStr (2 + 1)] :=
  c6_scoring "q1" "p" ["a", "b", "c"] "c" [] 2 (by decide) (by decide) (by decide)

/-! ## Claim C8 -/

theorem natDigitsGo_fuel (n : Nat) : ∀ (f g : Nat), n < f → n < g →
    natDigitsGo f n = natDigitsGo g n := by
  induction n using Nat.strong_induction_on with
  | _ n ih =>
    intro f g hf hg
    obtain ⟨f', rfl⟩ : ∃ f', f = f' + 1 := ⟨f - 1, by omega⟩
    obtain ⟨g', rfl⟩ : ∃ g', g = g' + 1 := ⟨g - 1, by omega⟩
    simp only [natDigitsGo]
    by_cases h10 : n < 10
    · simp [h10]
    · simp only [if_neg h10]
      have hdiv : n / 10 < n := Nat.div_lt_self (by omega) (by omega)
      rw [ih (n / 10) hdiv f' g' (by omega) (by omega)]

theorem natDigitsC_lt (n : Nat) (h : n < 10) : natDigitsC n = [digitChar n] := by
  unfold natDigitsC
  simp [natDigitsGo, h]

theorem natDigitsC_ge (n : Nat) (h : 10 ≤ n) :
    natDigitsC n = natDigitsC (n / 10) ++ [digitChar (n % 10)] := by
  unfold natDigitsC
  conv_lhs => simp only [natDigitsGo, if_neg (by omega : ¬ n < 10)]
  rw [natDigitsGo_fuel (n / 10) n (n / 10 + 1)
    (Nat.div_lt_self (by omega) (by omega)) (by omega)]

theorem digitChar_isDigit (k : Nat) (h : k < 10) : (digitChar k).isDigit = true := by
  interval_cases k <;> decide

theorem digitVal_digitChar (k : Nat) (h : k < 10) : digitVal (digitChar k) = k := by
  interval_cases k <;> decide

theorem natDigitsC_digits (n : Nat) : ∀ c ∈ natDigitsC n, c.isDigit = true := by
  induction n using Nat.strong_induction_on with
  | _ n ih =>
    by_cases h10 : n < 10
    · rw [natDigitsC_lt n h10]
      intro c hc
      simp only [List.mem_singleton] at hc
      subst hc
      exact digitChar_isDigit n h10
    · rw [natDigitsC_ge n (by omega)]
      intro c hc
      rcases List.mem_append.mp hc with hc | hc
      · exact ih (n / 10) (Nat.div_lt_self (by omega) (by omega)) c hc
      · simp only [List.mem_singleton] at hc
        subst hc
        exact digitChar_isDigit (n % 10) (Nat.mod_lt _ (by omega))

theorem natDigitsC_ne_nil (n : Nat) : natDigitsC n ≠ [] := by
  by_cases h10 : n < 10
  · rw [natDigitsC_lt n h10]; simp
  · rw [natDigitsC_ge n (by omega)]; simp

theorem natDigitsC_inj (m : Nat) : ∀ n, natDigitsC m = natDigitsC n → m = n := by
  induction m using Nat.strong_induction_on with
  | _ m ih =>
    intro n h
    by_cases hm : m < 10 <;> by_cases hn : n < 10
    · rw [natDigitsC_lt m hm, natDigitsC_lt n hn] at h
      have hdc : digitChar m = digitChar n := by simpa using h
      calc m = digitVal (digitChar m) := (digitVal_digitChar m hm).symm
        _ = digitVal (digitChar n) := by rw [hdc]
        _ = n := digitVal_digitChar n hn
    · exfalso
      rw [natDigitsC_lt m hm, natDigitsC_ge n (by omega)] at h
      have hlen := congrArg List.length h
      simp only [List.length_singleton, List.length_append] at hlen
      have hpos : 0 < (natDigitsC (n / 10)).length :=
        List.length_pos.mpr (natDigitsC_ne_nil (n / 10))
      omega
    · exfalso
      rw [natDigitsC_ge m (by omega), natDigitsC_lt n hn] at h
      have hlen := congrArg List.length h
      simp only [List.length_singleton, List.length_append] at hlen
      have hpos : 0 < (natDigitsC (m / 10)).length :=
        List.length_pos.mpr (natDigitsC_ne_nil (m / 10))
      omega
    · rw [natDigitsC_ge m (by omega), natDigitsC_ge n (by omega)] at h
      have hrev := congrArg List.reverse h
      simp only [List.reverse_append, List.reverse_cons, List.reverse_nil,
        List.nil_append, List.singleton_append] at hrev
      injection hrev with hd htl
      have hmod : m % 10 = n % 10 := by
        have h1 := digitVal_digitChar (m % 10) (Nat.mod_lt _ (by omega))
        have h2 := digitVal_digitChar (n % 10) (Nat.mod_lt _ (by omega))
        rw [← h1, ← h2, hd]
      have htl2 : natDigitsC (m / 10) = natDigitsC (n / 10) := List.reverse_injective htl
      have hdiv := ih (m / 10) (Nat.div_lt_self (by omega) (by omega)) (n / 10) htl2
      omega

theorem digit_suffix_eq : ∀ (x₁ x₂ r₁ r₂ : List Char),
    (∀ c ∈ x₁, c.isDigit = true) → (∀ c ∈ x₂, c.isDigit = true) →
    x₁ ++ 'v' :: r₁ = x₂ ++ 'v' :: r₂ → x₁ = x₂ := by
  intro x₁
  induction x₁ with
  | nil =>
    intro x₂ r₁ r₂ _ hd₂ h
    cases x₂ with
    | nil => rfl
    | cons c x₂ =>
      exfalso
      simp only [List.nil_append, List.cons_append] at h
      injection h with h1 _
      have hcv := hd₂ c (List.mem_cons_self _ _)
      rw [← h1] at hcv
      exact absurd hcv (by decide)
  | cons c x₁ ih =>
    intro x₂ r₁ r₂ hd₁ hd₂ h
    cases x₂ with
    | nil =>
      exfalso
      simp only [List.cons_append, List.nil_append] at h
      injection h with h1 _
      have hcv := hd₁ c (List.mem_cons_self _ _)
      rw [h1] at hcv
      exact absurd hcv (by decide)
    | cons c₂ x₂ =>
      simp only [List.cons_append] at h
      injection h with h1 h2
      subst h1
      rw [ih x₂ r₁ r₂ (fun d hd => hd₁ d (List.mem_cons_of_mem _ hd))
        (fun d hd => hd₂ d (List.mem_cons_of_mem _ hd)) h2]

theorem instanceId_version_inj {t₁ t₂ : String} {v₁ v₂ : Nat}
    (h : instanceId t₁ v₁ = instanceId t₂ v₂) : v₁ = v₂ := by
  have hdata := congrArg String.data h
  simp only [instanceId, String.data_append] at hdata
  have hd : ∀ v, (natStr v).data = natDigitsC v := fun _ => rfl
  rw [hd, hd] at hdata
  have hrev := congrArg List.reverse hdata
  simp only [List.reverse_append, List.reverse_cons, List.reverse_nil, List.nil_append,
    List.cons_append, List.singleton_append, List.append_assoc] at hrev
  have hdig : ∀ v, ∀ c ∈ (natDigitsC v).reverse, c.isDigit = true := by
    intro v c hc
    exact natDigitsC_digits v c (List.mem_reverse.mp hc)
  have hx := digit_suffix_eq (natDigitsC v₁).reverse (natDigitsC v₂).reverse _ _
    (hdig v₁) (hdig v₂) hrev
  have h2 : natDigitsC v₁ = natDigitsC v₂ := List.reverse_injective hx
  exact natDigitsC_inj v₁ v₂ h2

theorem variantPairs_lt (variants : Nat) :
    ∀ (ts : List String) (v : Nat),
      List.Pairwise (fun a b => a.2 < b.2) (variantPairs variants ts v) ∧
        ∀ p ∈ variantPairs variants ts v, v ≤ p.2 := by
  intro ts
  induction ts with
  | nil => intro v; exact ⟨List.Pairwise.nil, by simp [variantPairs]⟩
  | cons t ts ih =>
    intro v
    obtain ⟨ihp, ihb⟩ := ih (v + variants)
    constructor
    · rw [variantPairs, List.pairwise_append]
      refine ⟨?_, ihp, ?_⟩
      · rw [List.pairwise_map]
        exact (List.pairwise_lt_range variants).imp (fun hab => by simpa using by omega)
      · intro a ha b hb
        simp only [List.mem_map, List.mem_range] at ha
        obtain ⟨j, hj, rfl⟩ := ha
        have hbv := ihb b hb
        simp only
        omega
    · intro p hp
      rw [variantPairs] at hp
      rcases List.mem_append.mp hp with hp | hp
      · simp only [List.mem_map, List.mem_range] at hp
        obtain ⟨j, hj, rfl⟩ := hp
        simp only
        omega
      · have := ihb p hp
        omega

/-- C8: instance ids are globally unique within one run: over any template
list and any number of variants per template, the ids
`template_id ++ "_v" ++ str(version)` produced by `main`'s run-scoped
monotonically increasing counter are pairwise distinct (the version counter
is recoverable as the trailing digit run of the id, so distinct counters give
distinct ids whatever the template ids are). -/
theorem c8_unique_ids (template_ids : List String) (variants : Nat) :
    (mainIds template_ids variants).Nodup := by
  unfold mainIds
  show List.Pairwise _ _
  rw [List.pairwise_map]
  have hp := (variantPairs_lt variants template_ids 1).1
  refine hp.imp ?_
  intro a b hab he
  exact absurd (instanceId_version_inj he) (by omega)
